import Mathlib

/-!
# Verification of the super_adventure tile-extraction tools

Shallow embedding of the two Python tools of the repository:

* `tools/reconstruct_map.py` — namespace `ReconstructMap`: scans an
  overworld map image as a flat grid of 16×16 tiles, deduplicates tiles by
  their raw pixel bytes (`tile.tobytes()`), builds a square-ish tileset
  atlas, and exports a Tiled-style tilemap plus screen metadata.
* `tools/create_tileset.py` — namespace `CreateTileset`: scans a segmented
  source image (screens separated by 1px lines), deduplicates tiles by an
  MD5 fingerprint of their bytes, and packs unique tiles 16 per row.

Modelling conventions:

* An image is a total pixel function together with its declared size
  (`Img`).  A pixel value is a `ℕ` standing for the full channel tuple of
  one pixel; a tile's "raw bytes" are the list of its pixel values in
  raster order, so byte-string equality of `tobytes()` coincides with list
  equality.
* `PIL.Image.crop` zero-fills outside the source bounds; `getpixel`
  models this.
* Python `dict`s keyed by fingerprints are modelled as insertion-ordered
  association lists (`dictLookup`), which is exactly the observable
  behaviour of `h in d` / `d[h]` / insertion in the source.
* `numpy` float computations `int(np.ceil(np.sqrt(n)))` and
  `int(np.ceil(n / c))` are exact at every magnitude reachable here
  (IEEE sqrt is correctly rounded and the quantities are far from integer
  crossovers), so they are embedded as their exact integer counterparts.
-/

/-! ## Generic list machinery -/

/-- First index of `a` in `l` (length of `l` if absent); the insertion
order of a Python dict / list assigns ids by this index. -/
def idxOf {α : Type} [DecidableEq α] (a : α) : List α → ℕ
  | [] => 0
  | b :: l => if a = b then 0 else idxOf a l + 1

/-- Lookup in an association list, first match wins — the observable
content of a Python `dict` built by insertion. -/
def dictLookup {α β : Type} [DecidableEq α] (a : α) : List (α × β) → Option β
  | [] => none
  | (k, v) :: l => if a = k then some v else dictLookup a l

/-- One step of first-occurrence de-duplication: append `a` unless seen. -/
def insStep {α : Type} [DecidableEq α] (acc : List α) (a : α) : List α :=
  if a ∈ acc then acc else acc ++ [a]

/-- First-occurrence de-duplication of a list, preserving the order in
which distinct values first appear. -/
def firstDedup {α : Type} [DecidableEq α] (l : List α) : List α :=
  l.foldl insStep []

/-- Pair each element of `l` with its position, starting at `n`, as an
association list element ↦ index.  `idTableFrom 0 u` is the content of the
`tile_to_id` dict once `u` is the list of unique tiles. -/
def idTableFrom {α : Type} : ℕ → List α → List (α × ℕ)
  | _, [] => []
  | n, a :: l => (a, n) :: idTableFrom (n + 1) l

/-- Row-major 2D enumeration: the list `[g 0 0, …, g 0 (n-1), g 1 0, …]`,
the shape of every nested `for` loop and flattened array in the source. -/
def grid2 {α : Type} (m n : ℕ) (g : ℕ → ℕ → α) : List α :=
  (List.range m).flatMap fun j => (List.range n).map fun i => g j i

/-! ## Images -/

/-- A raster image: declared pixel size plus a total pixel function.
`pix x y` is the pixel at column `x`, row `y` (only `x < width`,
`y < height` is meaningful; reads outside go through `getpixel`). -/
structure Img where
  width : ℕ
  height : ℕ
  pix : ℕ → ℕ → ℕ

/-- Reading a pixel the way `PIL.Image.crop` does: zero fill (transparent
black) outside the image bounds. -/
def getpixel (img : Img) (x y : ℕ) : ℕ :=
  if x < img.width ∧ y < img.height then img.pix x y else 0

namespace ReconstructMap

/-! ## `tools/reconstruct_map.py` -/

def TILE_SIZE : ℕ := 16
def SCREEN_WIDTH_TILES : ℕ := 16
def SCREEN_HEIGHT_TILES : ℕ := 11
def SCREENS_WIDE : ℕ := 16
def SCREENS_TALL : ℕ := 8

/-- `extract_tile`: crop the `TILE_SIZE × TILE_SIZE` block at pixel
`(x, y)` and read it as a raster-order array (`np.array(tile)`); the
resulting list is the tile's raw byte content. -/
def extract_tile (image : Img) (x y : ℕ) : List ℕ :=
  grid2 TILE_SIZE TILE_SIZE fun dy dx => getpixel image (x + dx) (y + dy)

/-- `tile_hash`: `tile.tobytes()` — the fingerprint is the raw byte
content itself. -/
def tile_hash (tile : List ℕ) : List ℕ := tile

/-- The mutable state of `extract_unique_tiles_from_map`:
`tile_to_id : Dict[bytes, int]` and `unique_tiles : List[np.ndarray]`. -/
structure DedupState where
  tile_to_id : List (List ℕ × ℕ)
  unique_tiles : List (List ℕ)

/-- The body of the scan loop: hash the tile; if the hash is unseen,
assign it id `len(unique_tiles)` and append the tile. -/
def dedupInsert (st : DedupState) (tile : List ℕ) : DedupState :=
  match dictLookup (tile_hash tile) st.tile_to_id with
  | some _ => st
  | none =>
      { tile_to_id := st.tile_to_id ++ [(tile_hash tile, st.unique_tiles.length)]
        unique_tiles := st.unique_tiles ++ [tile] }

/-- The raster-scan order of the two nested loops
`for ty in range(tiles_y): for tx in range(tiles_x):` — cell `(tx, ty)`
appears at list position `ty * tiles_x + tx`. -/
def rasterCells (tiles_x tiles_y : ℕ) : List (ℕ × ℕ) :=
  grid2 tiles_y tiles_x fun ty tx => (tx, ty)

/-- `extract_unique_tiles_from_map`: scan every grid cell in raster order,
deduplicating by `tile_hash`. -/
def extract_unique_tiles_from_map (map_image : Img) : DedupState :=
  (rasterCells (map_image.width / TILE_SIZE) (map_image.height / TILE_SIZE)).foldl
    (fun st c => dedupInsert st (extract_tile map_image (c.1 * TILE_SIZE) (c.2 * TILE_SIZE)))
    ⟨[], []⟩

/-- The sequence of pixel blocks visited by the raster scan, in scan
order: position in this list is raster position. -/
def scannedTiles (map_image : Img) : List (List ℕ) :=
  (rasterCells (map_image.width / TILE_SIZE) (map_image.height / TILE_SIZE)).map
    fun c => extract_tile map_image (c.1 * TILE_SIZE) (c.2 * TILE_SIZE)

/-- `build_tile_map`: per-cell lookup of the tile's hash, emitted 1-based
(`row.append(tile_id + 1)`).  A missing key (impossible in the pipeline,
a `KeyError` in Python) is `none`. -/
def build_tile_map (map_image : Img) (tile_to_id : List (List ℕ × ℕ)) :
    List (List (Option ℕ)) :=
  (List.range (map_image.height / TILE_SIZE)).map fun ty =>
    (List.range (map_image.width / TILE_SIZE)).map fun tx =>
      (dictLookup (tile_hash (extract_tile map_image (tx * TILE_SIZE) (ty * TILE_SIZE)))
          tile_to_id).map (· + 1)

/-- The id the pipeline assigns to grid cell `(tx, ty)`: the dict lookup
`tile_to_id[tile_hash(tile)]` performed by `build_tile_map`. -/
def cellId (map_image : Img) (tx ty : ℕ) : Option ℕ :=
  dictLookup (tile_hash (extract_tile map_image (tx * TILE_SIZE) (ty * TILE_SIZE)))
    (extract_unique_tiles_from_map map_image).tile_to_id

/-- The 1-based tile reference exported for grid cell `(tx, ty)`. -/
def cellRef (map_image : Img) (tx ty : ℕ) : Option ℕ :=
  (cellId map_image tx ty).map (· + 1)

/-- `tiles_per_row = int(np.ceil(np.sqrt(num_tiles)))`, embedded exactly:
the least `c` with `num_tiles ≤ c * c`. -/
def tiles_per_row (num_tiles : ℕ) : ℕ :=
  if Nat.sqrt num_tiles * Nat.sqrt num_tiles = num_tiles then Nat.sqrt num_tiles
  else Nat.sqrt num_tiles + 1

/-- `num_rows = int(np.ceil(num_tiles / tiles_per_row))`: ceiling
division. -/
def num_rows (num_tiles tiles_per_row : ℕ) : ℕ :=
  (num_tiles + tiles_per_row - 1) / tiles_per_row

/-- `create_tileset_image`: a transparent `RGBA` canvas of
`tiles_per_row * TILE_SIZE × num_rows * TILE_SIZE` pixels with tile `i`
pasted at `((i % tiles_per_row) * TILE_SIZE, (i // tiles_per_row) * TILE_SIZE)`.
The pastes are disjoint, so a pixel `(x, y)` shows entry
`(y / TILE_SIZE) * tiles_per_row + (x / TILE_SIZE)` of `unique_tiles`
when that cell holds a pasted tile, and the transparent fill `0`
otherwise. -/
def create_tileset_image (unique_tiles : List (List ℕ)) : Img :=
  { width := tiles_per_row unique_tiles.length * TILE_SIZE
    height := num_rows unique_tiles.length (tiles_per_row unique_tiles.length) * TILE_SIZE
    pix := fun x y =>
      if x / TILE_SIZE < tiles_per_row unique_tiles.length ∧
          (y / TILE_SIZE) * tiles_per_row unique_tiles.length + x / TILE_SIZE <
            unique_tiles.length then
        (unique_tiles.getD ((y / TILE_SIZE) * tiles_per_row unique_tiles.length + x / TILE_SIZE)
            []).getD ((y % TILE_SIZE) * TILE_SIZE + x % TILE_SIZE) 0
      else 0 }

/-- `generate_tiled_json`: the flattened row-major layer data
(`flat_data.extend(row)` over the rows). -/
def flat_data (tilemap : List (List (Option ℕ))) : List (Option ℕ) :=
  tilemap.flatten

/-- The tileset descriptor emitted by `generate_tiled_json` (the numeric
fields). -/
structure TilesetEntry where
  columns : ℕ
  firstgid : ℕ
  imageheight : ℕ
  imagewidth : ℕ
  margin : ℕ
  spacing : ℕ
  tilecount : ℕ
  tileheight : ℕ
  tilewidth : ℕ
  deriving DecidableEq

/-- The `tilesets[0]` object of `generate_tiled_json`: note
`imageheight = (num_tiles // tiles_per_row + 1) * TILE_SIZE`. -/
def tileset_entry (tiles_per_row num_tiles : ℕ) : TilesetEntry :=
  { columns := tiles_per_row
    firstgid := 1
    imageheight := (num_tiles / tiles_per_row + 1) * TILE_SIZE
    imagewidth := tiles_per_row * TILE_SIZE
    margin := 0
    spacing := 0
    tilecount := num_tiles
    tileheight := TILE_SIZE
    tilewidth := TILE_SIZE }

/-- One record of `generate_screen_metadata`'s `screens` list. -/
structure ScreenRec where
  id : ℕ
  grid_x : ℕ
  grid_y : ℕ
  tile_x : ℕ
  tile_y : ℕ
  pixel_x : ℕ
  pixel_y : ℕ
  width_tiles : ℕ
  height_tiles : ℕ
  deriving DecidableEq

/-- `generate_screen_metadata`: the `screens` list, built by the loops
`for sy in range(SCREENS_TALL): for sx in range(SCREENS_WIDE):`. -/
def generate_screen_metadata : List ScreenRec :=
  grid2 SCREENS_TALL SCREENS_WIDE fun sy sx =>
    { id := sy * SCREENS_WIDE + sx
      grid_x := sx
      grid_y := sy
      tile_x := sx * SCREEN_WIDTH_TILES
      tile_y := sy * SCREEN_HEIGHT_TILES
      pixel_x := sx * SCREEN_WIDTH_TILES * TILE_SIZE
      pixel_y := sy * SCREEN_HEIGHT_TILES * TILE_SIZE
      width_tiles := SCREEN_WIDTH_TILES
      height_tiles := SCREEN_HEIGHT_TILES }

end ReconstructMap

namespace CreateTileset

/-! ## `tools/create_tileset.py` -/

def TILE_SIZE : ℕ := 16
def SCREEN_TILES_X : ℕ := 16
def SCREEN_TILES_Y : ℕ := 11
def SCREENS_X : ℕ := 16
def SCREENS_Y : ℕ := 9
def SEPARATOR_WIDTH : ℕ := 1
def SCREEN_WIDTH_PX : ℕ := SCREEN_TILES_X * TILE_SIZE
def SCREEN_HEIGHT_PX : ℕ := SCREEN_TILES_Y * TILE_SIZE
def OUTPUT_TILES_PER_ROW : ℕ := 16

/-- `get_screen_pixel_origin`: top-left pixel of screen
`(screen_x, screen_y)`, accounting for the 1px separators. -/
def get_screen_pixel_origin (screen_x screen_y : ℕ) : ℕ × ℕ :=
  (screen_x * (SCREEN_WIDTH_PX + SEPARATOR_WIDTH),
   screen_y * (SCREEN_HEIGHT_PX + SEPARATOR_WIDTH))

/-- The absolute pixel position `extract_tile` crops from:
screen origin plus `tile_x * TILE_SIZE` / `tile_y * TILE_SIZE`. -/
def tile_px (screen_x screen_y tile_x tile_y : ℕ) : ℕ × ℕ :=
  ((get_screen_pixel_origin screen_x screen_y).1 + tile_x * TILE_SIZE,
   (get_screen_pixel_origin screen_x screen_y).2 + tile_y * TILE_SIZE)

/-- `extract_tile`: crop the 16×16 block at `tile_px`; the list is the
tile's raw byte content in raster order. -/
def extract_tile (img : Img) (screen_x screen_y tile_x tile_y : ℕ) : List ℕ :=
  grid2 TILE_SIZE TILE_SIZE fun dy dx =>
    getpixel img ((tile_px screen_x screen_y tile_x tile_y).1 + dx)
      ((tile_px screen_x screen_y tile_x tile_y).2 + dy)

/-- `expected_width = SCREENS_X * SCREEN_WIDTH_PX + (SCREENS_X - 1) * SEPARATOR_WIDTH`. -/
def expected_width : ℕ := SCREENS_X * SCREEN_WIDTH_PX + (SCREENS_X - 1) * SEPARATOR_WIDTH

/-- `expected_height = SCREENS_Y * SCREEN_HEIGHT_PX + (SCREENS_Y - 1) * SEPARATOR_WIDTH`. -/
def expected_height : ℕ := SCREENS_Y * SCREEN_HEIGHT_PX + (SCREENS_Y - 1) * SEPARATOR_WIDTH

/-- The condition under which `main` prints
`WARNING: Image dimensions don't match expected!` (and nothing else:
execution continues either way). -/
def dims_warning (img : Img) : Prop :=
  img.width ≠ expected_width ∨ img.height ≠ expected_height

instance (img : Img) : Decidable (dims_warning img) := by
  unfold dims_warning; infer_instance

/-- The cells visited by `main`'s four nested loops, in loop order
(`screen_y`, `screen_x`, `tile_y`, `tile_x`), each as
`(screen_x, screen_y, tile_x, tile_y)`.  The ranges are the declared
geometry constants — the actual image size plays no part. -/
def scan_cells : List (ℕ × ℕ × ℕ × ℕ) :=
  (List.range SCREENS_Y).flatMap fun sy =>
    (List.range SCREENS_X).flatMap fun sx =>
      (List.range SCREEN_TILES_Y).flatMap fun ty =>
        (List.range SCREEN_TILES_X).map fun tx => (sx, sy, tx, ty)

/-- `total_tiles = SCREENS_X * SCREENS_Y * SCREEN_TILES_X * SCREEN_TILES_Y`. -/
def total_tiles : ℕ := SCREENS_X * SCREENS_Y * SCREEN_TILES_X * SCREEN_TILES_Y

/-- The pixel block `main` extracts at scan cell `c`. -/
def cellTile (img : Img) (c : ℕ × ℕ × ℕ × ℕ) : List ℕ :=
  extract_tile img c.1 c.2.1 c.2.2.1 c.2.2.2

/-- The full sequence of pixel blocks extracted by `main`, in scan
order; its length is the final value of `processed`. -/
def main_scan (img : Img) : List (List ℕ) :=
  scan_cells.map fun c => cellTile img c

/-- The mutable dedup state of `main`: `unique_tiles` (a dict hash ↦
tile) and `tile_order` (hashes in first occurrence order).  The MD5
hex digest is an opaque fingerprint function `md5 : bytes → ℕ`. -/
structure CtsState where
  unique_tiles : List (ℕ × List ℕ)
  tile_order : List ℕ

/-- The body of `main`'s scan loop: fingerprint the tile, record it if
the fingerprint is unseen. -/
def cts_step (md5 : List ℕ → ℕ) (img : Img) (st : CtsState) (c : ℕ × ℕ × ℕ × ℕ) :
    CtsState :=
  match dictLookup (md5 (cellTile img c)) st.unique_tiles with
  | some _ => st
  | none =>
      { unique_tiles := st.unique_tiles ++ [(md5 (cellTile img c), cellTile img c)]
        tile_order := st.tile_order ++ [md5 (cellTile img c)] }

/-- The dedup pass of `main` over the whole declared grid. -/
def cts_scan (md5 : List ℕ → ℕ) (img : Img) : CtsState :=
  scan_cells.foldl (cts_step md5 img) ⟨[], []⟩

/-- The fingerprint sequence of the scan, in scan order: position in
this list is raster (scan) position. -/
def cts_hashes (md5 : List ℕ → ℕ) (img : Img) : List ℕ :=
  scan_cells.map fun c => md5 (cellTile img c)

/-- The id `create_tileset` gives a cell's tile: its fingerprint's
position in `tile_order`, which is the index `i` used to place the tile
in the output image. -/
def ctsId (md5 : List ℕ → ℕ) (img : Img) (c : ℕ × ℕ × ℕ × ℕ) : ℕ :=
  idxOf (md5 (cellTile img c)) (cts_scan md5 img).tile_order

end CreateTileset

/-! ## Concrete inputs used by witnesses and counterexamples -/

/-- A 32×32 image (a 2×2 tile grid): the top-left tile is solid `1`, the
other three are solid `0`. -/
def wimg : Img :=
  { width := 32, height := 32, pix := fun x y => if x < 16 ∧ y < 16 then 1 else 0 }

/-- A 16×16 all-`5` image, much smaller than the geometry
`create_tileset.py` declares. -/
def smallImg : Img := { width := 16, height := 16, pix := fun _ _ => 5 }

/-- A 33×16 all-zero image: one full 2×1 tile grid plus one trailing
pixel column. -/
def trailImg1 : Img := { width := 33, height := 16, pix := fun _ _ => 0 }

/-- Like `trailImg1` but with different content in the trailing column
`x = 32`. -/
def trailImg2 : Img :=
  { width := 33, height := 16, pix := fun x _ => if x = 32 then 7 else 0 }

/-- Four arbitrary distinct tiles, a unique-tile count hitting the
`tiles_per_row ∣ num_tiles` case. -/
def fourTiles : List (List ℕ) := [[0], [1], [2], [3]]

/-! ## Lemmas about the generic machinery -/

section GenericLemmas

variable {α : Type} [DecidableEq α]

theorem idxOf_lt_length {a : α} {l : List α} (h : a ∈ l) : idxOf a l < l.length := by
  induction l with
  | nil => simp at h
  | cons b l ih =>
    by_cases hab : a = b
    · simp [idxOf, hab]
    · have hm : a ∈ l := (List.mem_cons.mp h).resolve_left hab
      simpa [idxOf, hab] using ih hm

theorem getD_idxOf {a d : α} {l : List α} (h : a ∈ l) : l.getD (idxOf a l) d = a := by
  induction l with
  | nil => simp at h
  | cons b l ih =>
    by_cases hab : a = b
    · simp [idxOf, hab]
    · have hm : a ∈ l := (List.mem_cons.mp h).resolve_left hab
      simpa [idxOf, hab] using ih hm

theorem idxOf_inj {a b : α} {l : List α} (ha : a ∈ l) (hb : b ∈ l)
    (h : idxOf a l = idxOf b l) : a = b := by
  have h1 : l.getD (idxOf a l) a = a := getD_idxOf ha
  rw [h, getD_idxOf hb] at h1
  exact h1.symm

theorem idxOf_append_left {a : α} {l₁ : List α} (l₂ : List α) (h : a ∈ l₁) :
    idxOf a (l₁ ++ l₂) = idxOf a l₁ := by
  induction l₁ with
  | nil => simp at h
  | cons b l ih =>
    by_cases hab : a = b
    · simp [idxOf, hab]
    · have hm : a ∈ l := (List.mem_cons.mp h).resolve_left hab
      simp [idxOf, hab, ih hm]

theorem idxOf_append_right {a : α} {l₁ : List α} (l₂ : List α) (h : a ∉ l₁) :
    idxOf a (l₁ ++ l₂) = l₁.length + idxOf a l₂ := by
  induction l₁ with
  | nil => simp
  | cons b l ih =>
    have hab : a ≠ b := fun e => h (by simp [e])
    have hm : a ∉ l := fun m => h (List.mem_cons_of_mem _ m)
    simp [idxOf, hab, ih hm]
    omega

theorem dictLookup_eq_none {β : Type} {a : α} {l : List (α × β)} :
    dictLookup a l = none ↔ a ∉ l.map Prod.fst := by
  induction l with
  | nil => simp [dictLookup]
  | cons p l ih =>
    obtain ⟨k, v⟩ := p
    by_cases h : a = k <;> simp [dictLookup, h, ih]

theorem dictLookup_idTableFrom {a : α} {l : List α} (n : ℕ) :
    dictLookup a (idTableFrom n l) =
      if a ∈ l then some (n + idxOf a l) else none := by
  induction l generalizing n with
  | nil => simp [idTableFrom, dictLookup]
  | cons b l ih =>
    by_cases hab : a = b
    · simp [idTableFrom, dictLookup, hab, idxOf]
    · by_cases hm : a ∈ l
      · have harith : n + 1 + idxOf a l = n + (idxOf a l + 1) := by omega
        simp [idTableFrom, dictLookup, hab, ih, hm, idxOf, harith]
      · simp [idTableFrom, dictLookup, hab, ih, hm]

omit [DecidableEq α] in
theorem idTableFrom_append (n : ℕ) (l₁ l₂ : List α) :
    idTableFrom n (l₁ ++ l₂) = idTableFrom n l₁ ++ idTableFrom (n + l₁.length) l₂ := by
  induction l₁ generalizing n with
  | nil => simp [idTableFrom]
  | cons a l ih =>
    have harith : n + 1 + l.length = n + (l.length + 1) := by omega
    simp [idTableFrom, ih, harith]

omit [DecidableEq α] in
theorem map_snd_idTableFrom (n : ℕ) (l : List α) :
    (idTableFrom n l).map Prod.snd = List.range' n l.length := by
  induction l generalizing n with
  | nil => simp [idTableFrom]
  | cons a l ih => simp [idTableFrom, ih, List.range'_succ]

theorem mem_insStep {acc : List α} {a x : α} : x ∈ insStep acc a ↔ x ∈ acc ∨ x = a := by
  by_cases h : a ∈ acc
  · simp only [insStep, if_pos h]
    exact ⟨Or.inl, fun h' => h'.elim id fun e => e ▸ h⟩
  · simp [insStep, if_neg h]

theorem exists_foldl_insStep_append (l : List α) : ∀ acc : List α,
    ∃ r, l.foldl insStep acc = acc ++ r := by
  induction l with
  | nil => exact fun acc => ⟨[], by simp⟩
  | cons a l ih =>
    intro acc
    by_cases h : a ∈ acc
    · simpa [insStep, h] using ih acc
    · obtain ⟨r, hr⟩ := ih (acc ++ [a])
      exact ⟨a :: r, by simp [insStep, h, hr]⟩

theorem mem_foldl_insStep {l : List α} : ∀ {acc : List α} {x : α},
    x ∈ l.foldl insStep acc ↔ x ∈ acc ∨ x ∈ l := by
  induction l with
  | nil => simp
  | cons a l ih =>
    intro acc x
    rw [List.foldl_cons, ih, mem_insStep]
    simp [List.mem_cons]
    tauto

theorem idxOf_foldl_insStep_lt {l : List α} : ∀ {acc : List α} {a b : α},
    a ∉ acc → b ∉ acc → a ∈ l → b ∈ l → idxOf a l < idxOf b l →
    idxOf a (l.foldl insStep acc) < idxOf b (l.foldl insStep acc) := by
  induction l with
  | nil => intro acc a b _ _ ha _ _; simp at ha
  | cons c l ih =>
    intro acc a b hna hnb ha hb hlt
    rw [List.foldl_cons]
    have hbc : b ≠ c := by
      intro e
      rw [e] at hlt
      simp [idxOf] at hlt
    by_cases hac : a = c
    · subst hac
      have hstep : insStep acc a = acc ++ [a] := by simp [insStep, hna]
      rw [hstep]
      have hbl : b ∈ l := (List.mem_cons.mp hb).resolve_left hbc
      obtain ⟨r, hr⟩ := exists_foldl_insStep_append l (acc ++ [a])
      have hia : idxOf a (l.foldl insStep (acc ++ [a])) = acc.length := by
        rw [hr, @idxOf_append_left α _ a (acc ++ [a]) r (by simp),
          idxOf_append_right _ hna]
        simp [idxOf]
      have hnb' : b ∉ acc ++ [a] := by simp [hnb, hbc]
      have hib : idxOf b (l.foldl insStep (acc ++ [a])) =
          (acc ++ [a]).length + idxOf b r := by
        rw [hr, idxOf_append_right _ hnb']
      rw [hia, hib]
      simp
      omega
    · have hal : a ∈ l := (List.mem_cons.mp ha).resolve_left hac
      have hbl : b ∈ l := (List.mem_cons.mp hb).resolve_left hbc
      have hlt' : idxOf a l < idxOf b l := by
        simp [idxOf, hac, hbc] at hlt
        omega
      by_cases hc : c ∈ acc
      · rw [show insStep acc c = acc from by simp [insStep, hc]]
        exact ih hna hnb hal hbl hlt'
      · rw [show insStep acc c = acc ++ [c] from by simp [insStep, hc]]
        exact ih (by simp [hna, hac]) (by simp [hnb, hbc]) hal hbl hlt'

theorem grid2_succ {β : Type} (m n : ℕ) (g : ℕ → ℕ → β) :
    grid2 (m + 1) n g = grid2 m n g ++ (List.range n).map (g m) := by
  simp [grid2, List.range_succ]

theorem length_grid2 {β : Type} (m n : ℕ) (g : ℕ → ℕ → β) :
    (grid2 m n g).length = m * n := by
  induction m with
  | zero => simp [grid2]
  | succ m ih => simp [grid2_succ, ih, Nat.succ_mul]

theorem mem_grid2 {β : Type} {m n : ℕ} {g : ℕ → ℕ → β} {x : β} :
    x ∈ grid2 m n g ↔ ∃ j, j < m ∧ ∃ i, i < n ∧ x = g j i := by
  simp [grid2, eq_comm]

theorem getD_grid2 {β : Type} {m n j i : ℕ} (g : ℕ → ℕ → β) (d : β)
    (hj : j < m) (hi : i < n) : (grid2 m n g).getD (j * n + i) d = g j i := by
  induction m with
  | zero => omega
  | succ m ih =>
    rcases Nat.lt_succ_iff_lt_or_eq.mp hj with h | rfl
    · have hlen : j * n + i < (grid2 m n g).length := by
        rw [length_grid2]
        calc j * n + i < j * n + n := by omega
        _ = (j + 1) * n := by ring
        _ ≤ m * n := Nat.mul_le_mul_right n h
      rw [grid2_succ, List.getD_eq_getElem?_getD, List.getElem?_append_left hlen,
        ← List.getD_eq_getElem?_getD]
      exact ih h
    · have hlen : (grid2 j n g).length ≤ j * n + i := by rw [length_grid2]; omega
      rw [grid2_succ, List.getD_eq_getElem?_getD, List.getElem?_append_right hlen,
        length_grid2]
      have hidx : j * n + i - j * n = i := by omega
      rw [hidx, List.getElem?_map]
      have hr : (List.range n)[i]? = some i := by
        rw [List.getElem?_range hi]
      rw [hr]
      rfl

theorem grid2_congr {β : Type} {m n : ℕ} {g g' : ℕ → ℕ → β}
    (h : ∀ j, j < m → ∀ i, i < n → g j i = g' j i) : grid2 m n g = grid2 m n g' := by
  induction m with
  | zero => rfl
  | succ m ih =>
    rw [grid2_succ, grid2_succ, ih fun j hj i hi => h j (Nat.lt_succ_of_lt hj) i hi]
    congr 1
    exact List.map_congr_left fun i hi => h m (Nat.lt_succ_self m) i (List.mem_range.mp hi)

end GenericLemmas

theorem mem_firstDedup {α : Type} [DecidableEq α] {l : List α} {x : α} :
    x ∈ firstDedup l ↔ x ∈ l := by
  unfold firstDedup
  rw [mem_foldl_insStep]
  simp

namespace ReconstructMap

/-- One dedup step on a state in canonical shape keeps it canonical:
the dict is always the id table of the unique list. -/
theorem dedupInsert_idTable (l : List (List ℕ)) (t : List ℕ) :
    dedupInsert ⟨idTableFrom 0 l, l⟩ t = ⟨idTableFrom 0 (insStep l t), insStep l t⟩ := by
  by_cases hm : t ∈ l
  · simp [dedupInsert, tile_hash, dictLookup_idTableFrom, hm, insStep]
  · simp [dedupInsert, tile_hash, dictLookup_idTableFrom, hm, insStep,
      idTableFrom_append, idTableFrom]

theorem foldl_dedupInsert (ts : List (List ℕ)) : ∀ l : List (List ℕ),
    ts.foldl dedupInsert ⟨idTableFrom 0 l, l⟩ =
      ⟨idTableFrom 0 (ts.foldl insStep l), ts.foldl insStep l⟩ := by
  induction ts with
  | nil => intro l; rfl
  | cons t ts ih =>
    intro l
    rw [List.foldl_cons, List.foldl_cons, dedupInsert_idTable]
    exact ih (insStep l t)

/-- The scan of `extract_unique_tiles_from_map`: the unique list is the
first-occurrence dedup of the scanned tile sequence, and the dict maps
each unique tile to its position in that list. -/
theorem extract_unique_spec (img : Img) :
    extract_unique_tiles_from_map img =
      ⟨idTableFrom 0 (firstDedup (scannedTiles img)), firstDedup (scannedTiles img)⟩ := by
  unfold extract_unique_tiles_from_map firstDedup scannedTiles
  rw [← List.foldl_map (fun c : ℕ × ℕ =>
    extract_tile img (c.1 * TILE_SIZE) (c.2 * TILE_SIZE)) dedupInsert]
  exact foldl_dedupInsert _ []

theorem mem_scannedTiles {img : Img} {tx ty : ℕ}
    (htx : tx < img.width / TILE_SIZE) (hty : ty < img.height / TILE_SIZE) :
    extract_tile img (tx * TILE_SIZE) (ty * TILE_SIZE) ∈ scannedTiles img :=
  List.mem_map.mpr ⟨(tx, ty), mem_grid2.mpr ⟨ty, hty, tx, htx, rfl⟩, rfl⟩

/-- What the per-cell dict lookup returns: the tile's index in the
unique-tile list. -/
theorem cellId_eq {img : Img} {tx ty : ℕ}
    (htx : tx < img.width / TILE_SIZE) (hty : ty < img.height / TILE_SIZE) :
    cellId img tx ty =
      some (idxOf (extract_tile img (tx * TILE_SIZE) (ty * TILE_SIZE))
        (firstDedup (scannedTiles img))) := by
  have hmem : extract_tile img (tx * TILE_SIZE) (ty * TILE_SIZE) ∈
      firstDedup (scannedTiles img) :=
    mem_firstDedup.mpr (mem_scannedTiles htx hty)
  unfold cellId
  rw [extract_unique_spec, tile_hash, dictLookup_idTableFrom]
  simp [hmem]

/-- Looking up any scanned tile succeeds with its index in the unique
list. -/
theorem lookup_scanned {img : Img} {t : List ℕ} (h : t ∈ scannedTiles img) :
    dictLookup (tile_hash t) (extract_unique_tiles_from_map img).tile_to_id =
      some (idxOf t (firstDedup (scannedTiles img))) := by
  have hmem : t ∈ firstDedup (scannedTiles img) := mem_firstDedup.mpr h
  rw [extract_unique_spec, tile_hash, dictLookup_idTableFrom]
  simp [hmem]

theorem tiles_per_row_pos {n : ℕ} (h : 0 < n) : 0 < tiles_per_row n := by
  unfold tiles_per_row
  split
  · next he =>
    rcases Nat.eq_zero_or_pos (Nat.sqrt n) with h0 | hp
    · rw [h0] at he
      omega
    · exact hp
  · omega

theorem le_tiles_per_row_sq (n : ℕ) : n ≤ tiles_per_row n * tiles_per_row n := by
  unfold tiles_per_row
  split
  · next he => omega
  · exact Nat.le_of_lt (Nat.lt_succ_sqrt n)

theorem tiles_per_row_pred_sq_lt {n : ℕ} (h : 0 < n) :
    (tiles_per_row n - 1) * (tiles_per_row n - 1) < n := by
  unfold tiles_per_row
  split
  · next he =>
    have hs : 0 < Nat.sqrt n := by
      rcases Nat.eq_zero_or_pos (Nat.sqrt n) with h0 | hp
      · rw [h0] at he
        omega
      · exact hp
    have h1 : (Nat.sqrt n - 1) * (Nat.sqrt n - 1) < Nat.sqrt n * Nat.sqrt n := by
      have h2 : Nat.sqrt n - 1 < Nat.sqrt n := Nat.sub_lt hs Nat.one_pos
      exact Nat.mul_lt_mul_of_lt_of_le h2 (Nat.le_of_lt h2) hs
    omega
  · next hne =>
    have h1 : Nat.sqrt n * Nat.sqrt n ≤ n := Nat.sqrt_le n
    simpa using lt_of_le_of_ne h1 hne

theorem le_num_rows_mul {n c : ℕ} (hc : 0 < c) : n ≤ num_rows n c * c := by
  unfold num_rows
  have hdm := Nat.div_add_mod (n + c - 1) c
  have hlt : (n + c - 1) % c < c := Nat.mod_lt _ hc
  have hcm : (n + c - 1) / c * c = c * ((n + c - 1) / c) := Nat.mul_comm _ _
  omega

theorem num_rows_pred_mul_lt {n c : ℕ} (hn : 0 < n) (hc : 0 < c) :
    (num_rows n c - 1) * c < n := by
  unfold num_rows
  have h1 : (n + c - 1) / c * c ≤ n + c - 1 := Nat.div_mul_le_self _ _
  have h2 : ((n + c - 1) / c - 1) * c = (n + c - 1) / c * c - c := by
    rw [Nat.sub_mul, Nat.one_mul]
  omega

theorem num_rows_pos {n c : ℕ} (hn : 0 < n) (hc : 0 < c) : 0 < num_rows n c := by
  by_contra h
  have h0 : num_rows n c = 0 := by omega
  have := le_num_rows_mul (n := n) hc
  rw [h0] at this
  omega

theorem create_tileset_image_width (uts : List (List ℕ)) :
    (create_tileset_image uts).width = tiles_per_row uts.length * TILE_SIZE := rfl

theorem create_tileset_image_height (uts : List (List ℕ)) :
    (create_tileset_image uts).height =
      num_rows uts.length (tiles_per_row uts.length) * TILE_SIZE := rfl

/-- Pixel `(dx, dy)` of atlas cell `i` is entry `dy * TILE_SIZE + dx` of
the `i`-th unique tile: the pastes are at disjoint 16×16 cells. -/
theorem atlas_pix (uts : List (List ℕ)) {i dx dy : ℕ} (hi : i < uts.length)
    (hdx : dx < TILE_SIZE) (hdy : dy < TILE_SIZE) :
    (create_tileset_image uts).pix (i % tiles_per_row uts.length * TILE_SIZE + dx)
      (i / tiles_per_row uts.length * TILE_SIZE + dy) =
      (uts.getD i []).getD (dy * TILE_SIZE + dx) 0 := by
  have hn : 0 < uts.length := by omega
  have hc : 0 < tiles_per_row uts.length := tiles_per_row_pos hn
  have hts : 0 < TILE_SIZE := by decide
  have hxdiv : (i % tiles_per_row uts.length * TILE_SIZE + dx) / TILE_SIZE =
      i % tiles_per_row uts.length := by
    rw [Nat.mul_comm, Nat.mul_add_div hts, Nat.div_eq_of_lt hdx]
    omega
  have hxmod : (i % tiles_per_row uts.length * TILE_SIZE + dx) % TILE_SIZE = dx := by
    rw [Nat.mul_comm, Nat.mul_add_mod, Nat.mod_eq_of_lt hdx]
  have hydiv : (i / tiles_per_row uts.length * TILE_SIZE + dy) / TILE_SIZE =
      i / tiles_per_row uts.length := by
    rw [Nat.mul_comm, Nat.mul_add_div hts, Nat.div_eq_of_lt hdy]
    omega
  have hymod : (i / tiles_per_row uts.length * TILE_SIZE + dy) % TILE_SIZE = dy := by
    rw [Nat.mul_comm, Nat.mul_add_mod, Nat.mod_eq_of_lt hdy]
  have hxc : i % tiles_per_row uts.length < tiles_per_row uts.length := Nat.mod_lt _ hc
  have hidx : i / tiles_per_row uts.length * tiles_per_row uts.length +
      i % tiles_per_row uts.length = i := by
    rw [Nat.mul_comm]
    exact Nat.div_add_mod i _
  simp only [create_tileset_image, hxdiv, hydiv, hxmod, hymod, hidx]
  rw [if_pos ⟨hxc, hi⟩]

/-- Cropping atlas cell `i` back out of the tileset image yields the
byte content of the `i`-th unique tile, re-serialized in raster order. -/
theorem extract_tile_atlas (uts : List (List ℕ)) {i : ℕ} (hi : i < uts.length) :
    extract_tile (create_tileset_image uts)
        (i % tiles_per_row uts.length * TILE_SIZE) (i / tiles_per_row uts.length * TILE_SIZE) =
      grid2 TILE_SIZE TILE_SIZE fun dy dx => (uts.getD i []).getD (dy * TILE_SIZE + dx) 0 := by
  have hn : 0 < uts.length := by omega
  have hc : 0 < tiles_per_row uts.length := tiles_per_row_pos hn
  unfold extract_tile
  apply grid2_congr
  intro dy hdy dx hdx
  have hx : i % tiles_per_row uts.length * TILE_SIZE + dx <
      tiles_per_row uts.length * TILE_SIZE := by
    have hxc : i % tiles_per_row uts.length < tiles_per_row uts.length := Nat.mod_lt _ hc
    calc i % tiles_per_row uts.length * TILE_SIZE + dx
        < (i % tiles_per_row uts.length + 1) * TILE_SIZE := by rw [Nat.add_mul]; omega
    _ ≤ tiles_per_row uts.length * TILE_SIZE := Nat.mul_le_mul_right _ hxc
  have hy : i / tiles_per_row uts.length * TILE_SIZE + dy <
      num_rows uts.length (tiles_per_row uts.length) * TILE_SIZE := by
    have hyr : i / tiles_per_row uts.length < num_rows uts.length (tiles_per_row uts.length) := by
      have hle : uts.length ≤ num_rows uts.length (tiles_per_row uts.length) *
          tiles_per_row uts.length := le_num_rows_mul hc
      have hcomm : num_rows uts.length (tiles_per_row uts.length) * tiles_per_row uts.length =
          tiles_per_row uts.length * num_rows uts.length (tiles_per_row uts.length) :=
        Nat.mul_comm _ _
      exact Nat.div_lt_of_lt_mul (by omega)
    calc i / tiles_per_row uts.length * TILE_SIZE + dy
        < (i / tiles_per_row uts.length + 1) * TILE_SIZE := by rw [Nat.add_mul]; omega
    _ ≤ num_rows uts.length (tiles_per_row uts.length) * TILE_SIZE :=
        Nat.mul_le_mul_right _ hyr
  rw [getpixel, if_pos ⟨hx, hy⟩]
  exact atlas_pix uts hi hdx hdy

/-- Reassembling a 16×16 block from its serialized bytes is the
identity. -/
theorem grid2_getD_self (f : ℕ → ℕ → ℕ) :
    grid2 TILE_SIZE TILE_SIZE (fun dy dx =>
      (grid2 TILE_SIZE TILE_SIZE f).getD (dy * TILE_SIZE + dx) 0) =
    grid2 TILE_SIZE TILE_SIZE f :=
  grid2_congr fun _ hdy _ hdx => getD_grid2 f 0 hdy hdx

/-- Extraction never reads a pixel at or beyond the last complete tile
boundary, so two images agreeing below it extract identical blocks. -/
theorem extract_tile_eq_of_agree {img1 img2 : Img} (hw : img1.width = img2.width)
    (hh : img1.height = img2.height)
    (hagree : ∀ x y, x < img1.width / TILE_SIZE * TILE_SIZE →
      y < img1.height / TILE_SIZE * TILE_SIZE → img1.pix x y = img2.pix x y)
    {tx ty : ℕ} (htx : tx < img1.width / TILE_SIZE) (hty : ty < img1.height / TILE_SIZE) :
    extract_tile img1 (tx * TILE_SIZE) (ty * TILE_SIZE) =
      extract_tile img2 (tx * TILE_SIZE) (ty * TILE_SIZE) := by
  unfold extract_tile
  apply grid2_congr
  intro dy hdy dx hdx
  have hxb : tx * TILE_SIZE + dx < img1.width / TILE_SIZE * TILE_SIZE := by
    calc tx * TILE_SIZE + dx < (tx + 1) * TILE_SIZE := by rw [Nat.add_mul]; omega
    _ ≤ img1.width / TILE_SIZE * TILE_SIZE := Nat.mul_le_mul_right _ htx
  have hyb : ty * TILE_SIZE + dy < img1.height / TILE_SIZE * TILE_SIZE := by
    calc ty * TILE_SIZE + dy < (ty + 1) * TILE_SIZE := by rw [Nat.add_mul]; omega
    _ ≤ img1.height / TILE_SIZE * TILE_SIZE := Nat.mul_le_mul_right _ hty
  have hxw : tx * TILE_SIZE + dx < img1.width :=
    lt_of_lt_of_le hxb (Nat.div_mul_le_self _ _)
  have hyw : ty * TILE_SIZE + dy < img1.height :=
    lt_of_lt_of_le hyb (Nat.div_mul_le_self _ _)
  rw [getpixel, getpixel, if_pos ⟨hxw, hyw⟩, if_pos ⟨hw ▸ hxw, hh ▸ hyw⟩]
  exact hagree _ _ hxb hyb

theorem scannedTiles_eq_of_agree {img1 img2 : Img} (hw : img1.width = img2.width)
    (hh : img1.height = img2.height)
    (hagree : ∀ x y, x < img1.width / TILE_SIZE * TILE_SIZE →
      y < img1.height / TILE_SIZE * TILE_SIZE → img1.pix x y = img2.pix x y) :
    scannedTiles img1 = scannedTiles img2 := by
  have hcells : rasterCells (img2.width / TILE_SIZE) (img2.height / TILE_SIZE) =
      rasterCells (img1.width / TILE_SIZE) (img1.height / TILE_SIZE) := by
    rw [hw, hh]
  unfold scannedTiles
  rw [hcells]
  apply List.map_congr_left
  intro c hc
  obtain ⟨ty', hty', tx', htx', rfl⟩ := mem_grid2.mp hc
  exact extract_tile_eq_of_agree hw hh hagree htx' hty'

theorem extract_unique_eq_of_agree {img1 img2 : Img} (hw : img1.width = img2.width)
    (hh : img1.height = img2.height)
    (hagree : ∀ x y, x < img1.width / TILE_SIZE * TILE_SIZE →
      y < img1.height / TILE_SIZE * TILE_SIZE → img1.pix x y = img2.pix x y) :
    extract_unique_tiles_from_map img1 = extract_unique_tiles_from_map img2 := by
  rw [extract_unique_spec, extract_unique_spec, scannedTiles_eq_of_agree hw hh hagree]

theorem build_tile_map_eq_of_agree {img1 img2 : Img} (hw : img1.width = img2.width)
    (hh : img1.height = img2.height)
    (hagree : ∀ x y, x < img1.width / TILE_SIZE * TILE_SIZE →
      y < img1.height / TILE_SIZE * TILE_SIZE → img1.pix x y = img2.pix x y) :
    build_tile_map img1 (extract_unique_tiles_from_map img1).tile_to_id =
      build_tile_map img2 (extract_unique_tiles_from_map img2).tile_to_id := by
  have hT := extract_unique_eq_of_agree hw hh hagree
  unfold build_tile_map
  rw [← hw, ← hh, ← hT]
  apply List.map_congr_left
  intro ty hty
  apply List.map_congr_left
  intro tx htx
  rw [extract_tile_eq_of_agree hw hh hagree (List.mem_range.mp htx) (List.mem_range.mp hty)]

end ReconstructMap

theorem length_flatMap_const {α β : Type} (l : List α) (f : α → List β) (k : ℕ)
    (h : ∀ a ∈ l, (f a).length = k) : (l.flatMap f).length = l.length * k := by
  induction l with
  | nil => simp
  | cons a l ih =>
    rw [List.flatMap_cons, List.length_append, h a (List.mem_cons_self a l),
      ih fun a ha => h a (List.mem_cons_of_mem _ ha), List.length_cons, Nat.succ_mul]
    omega

namespace CreateTileset

/-- One dedup step: given the dict/order coupling, the hash order evolves
by first-occurrence insertion and the coupling is preserved. -/
theorem cts_step_spec (md5 : List ℕ → ℕ) (img : Img) (st : CtsState)
    (hinv : st.unique_tiles.map Prod.fst = st.tile_order) (c : ℕ × ℕ × ℕ × ℕ) :
    (cts_step md5 img st c).tile_order = insStep st.tile_order (md5 (cellTile img c)) ∧
    (cts_step md5 img st c).unique_tiles.map Prod.fst = (cts_step md5 img st c).tile_order := by
  unfold cts_step
  split
  · rename_i v hlk
    have hmem : md5 (cellTile img c) ∈ st.tile_order := by
      rw [← hinv]
      by_contra hnm
      rw [dictLookup_eq_none.mpr hnm] at hlk
      exact Option.noConfusion hlk
    simp [insStep, hmem, hinv]
  · rename_i hlk
    have hnm : md5 (cellTile img c) ∉ st.tile_order := by
      rw [← hinv]
      exact dictLookup_eq_none.mp hlk
    simp [insStep, hnm, hinv]

theorem foldl_cts_step (md5 : List ℕ → ℕ) (img : Img) (cells : List (ℕ × ℕ × ℕ × ℕ)) :
    ∀ st : CtsState, st.unique_tiles.map Prod.fst = st.tile_order →
    (cells.foldl (cts_step md5 img) st).tile_order =
      (cells.map fun c => md5 (cellTile img c)).foldl insStep st.tile_order ∧
    (cells.foldl (cts_step md5 img) st).unique_tiles.map Prod.fst =
      (cells.foldl (cts_step md5 img) st).tile_order := by
  induction cells with
  | nil => exact fun st h => ⟨rfl, h⟩
  | cons c cells ih =>
    intro st h
    obtain ⟨h1, h2⟩ := cts_step_spec md5 img st h c
    rw [List.foldl_cons, List.map_cons, List.foldl_cons, ← h1]
    exact ih _ h2

/-- `tile_order` after the scan is the first-occurrence dedup of the
fingerprint sequence. -/
theorem cts_tile_order (md5 : List ℕ → ℕ) (img : Img) :
    (cts_scan md5 img).tile_order = firstDedup (cts_hashes md5 img) :=
  (foldl_cts_step md5 img scan_cells ⟨[], []⟩ rfl).1

theorem mem_scan_cells {sx sy tx ty : ℕ} :
    (sx, sy, tx, ty) ∈ scan_cells ↔
      sx < SCREENS_X ∧ sy < SCREENS_Y ∧ tx < SCREEN_TILES_X ∧ ty < SCREEN_TILES_Y := by
  simp only [scan_cells, List.mem_flatMap, List.mem_map, List.mem_range, Prod.mk.injEq]
  constructor
  · rintro ⟨sy', hsy', sx', hsx', ty', hty', tx', htx', rfl, rfl, rfl, rfl⟩
    exact ⟨hsx', hsy', htx', hty'⟩
  · rintro ⟨hsx, hsy, htx, hty⟩
    exact ⟨sy, hsy, sx, hsx, ty, hty, tx, htx, rfl, rfl, rfl, rfl⟩

theorem length_scan_cells : scan_cells.length = total_tiles := by
  unfold scan_cells
  rw [length_flatMap_const _ _ (SCREENS_X * (SCREEN_TILES_Y * SCREEN_TILES_X))]
  · decide
  · intro sy _
    rw [length_flatMap_const _ _ (SCREEN_TILES_Y * SCREEN_TILES_X)]
    · simp
    · intro sx _
      rw [length_flatMap_const _ _ SCREEN_TILES_X]
      · simp
      · intro ty _
        simp

theorem length_main_scan (img : Img) : (main_scan img).length = total_tiles := by
  unfold main_scan
  rw [List.length_map, length_scan_cells]

end CreateTileset

namespace ReconstructMap

/-- The exact integer `tiles_per_row` agrees with the spec formula
`ceil(sqrt(num_tiles))`. -/
theorem tiles_per_row_eq_ceil_sqrt {n : ℕ} (hn : 0 < n) :
    tiles_per_row n = ⌈Real.sqrt n⌉₊ := by
  have hc : 0 < tiles_per_row n := tiles_per_row_pos hn
  have h1 : n ≤ tiles_per_row n * tiles_per_row n := le_tiles_per_row_sq n
  have h2 : (tiles_per_row n - 1) * (tiles_per_row n - 1) < n := tiles_per_row_pred_sq_lt hn
  symm
  rw [Nat.ceil_eq_iff (by omega)]
  constructor
  · have hlt : ((tiles_per_row n - 1 : ℕ) : ℝ) ^ 2 < (n : ℝ) := by
      rw [sq, ← Nat.cast_mul]
      exact_mod_cast h2
    calc ((tiles_per_row n - 1 : ℕ) : ℝ)
        = Real.sqrt (((tiles_per_row n - 1 : ℕ) : ℝ) ^ 2) :=
          (Real.sqrt_sq (by positivity)).symm
    _ < Real.sqrt n := Real.sqrt_lt_sqrt (by positivity) hlt
  · have hle : (n : ℝ) ≤ ((tiles_per_row n : ℕ) : ℝ) ^ 2 := by
      rw [sq, ← Nat.cast_mul]
      exact_mod_cast h1
    calc Real.sqrt n ≤ Real.sqrt (((tiles_per_row n : ℕ) : ℝ) ^ 2) := Real.sqrt_le_sqrt hle
    _ = _ := Real.sqrt_sq (by positivity)

/-- The exact integer `num_rows` agrees with the spec formula
`ceil(num_tiles / tiles_per_row)`. -/
theorem num_rows_eq_ceil_div {n c : ℕ} (hn : 0 < n) (hc : 0 < c) :
    num_rows n c = ⌈(n : ℝ) / (c : ℝ)⌉₊ := by
  have h1 : n ≤ num_rows n c * c := le_num_rows_mul hc
  have h2 : (num_rows n c - 1) * c < n := num_rows_pred_mul_lt hn hc
  have hr : 0 < num_rows n c := num_rows_pos hn hc
  have hcR : (0 : ℝ) < (c : ℝ) := by exact_mod_cast hc
  symm
  rw [Nat.ceil_eq_iff (by omega)]
  constructor
  · rw [lt_div_iff₀ hcR, ← Nat.cast_mul]
    exact_mod_cast h2
  · rw [div_le_iff₀ hcR, ← Nat.cast_mul]
    exact_mod_cast h1

end ReconstructMap

namespace ReconstructMap

theorem extract_unique_unique (img : Img) :
    (extract_unique_tiles_from_map img).unique_tiles = firstDedup (scannedTiles img) := by
  rw [extract_unique_spec]

/-- The flattened layer data is the row-major enumeration of the per-cell
lookups. -/
theorem flat_data_build (img : Img) (T : List (List ℕ × ℕ)) :
    flat_data (build_tile_map img T) =
      grid2 (img.height / TILE_SIZE) (img.width / TILE_SIZE) fun ty tx =>
        (dictLookup (tile_hash (extract_tile img (tx * TILE_SIZE) (ty * TILE_SIZE))) T).map
          (· + 1) := by
  unfold flat_data build_tile_map grid2
  rw [List.flatMap_def]

end ReconstructMap

/-! ## The claims -/

set_option maxRecDepth 40000

/-- C1: for every pair of grid cells scanned from the same source image,
the Tile IDs assigned by the deduplicator are equal iff the two cells'
pixel blocks are byte-identical; the fingerprint of the block's raw bytes
(`tile.tobytes()` in `reconstruct_map`, its MD5 digest in
`create_tileset`, here an arbitrary fingerprint function `md5`) is the
sole equality criterion for deduplication. -/
theorem claim1 (img : Img) (tx1 ty1 tx2 ty2 : ℕ)
    (h1 : tx1 < img.width / ReconstructMap.TILE_SIZE)
    (h2 : ty1 < img.height / ReconstructMap.TILE_SIZE)
    (h3 : tx2 < img.width / ReconstructMap.TILE_SIZE)
    (h4 : ty2 < img.height / ReconstructMap.TILE_SIZE) :
    (∃ i1 i2, ReconstructMap.cellId img tx1 ty1 = some i1 ∧
      ReconstructMap.cellId img tx2 ty2 = some i2 ∧
      (i1 = i2 ↔
        ReconstructMap.extract_tile img (tx1 * ReconstructMap.TILE_SIZE)
            (ty1 * ReconstructMap.TILE_SIZE) =
          ReconstructMap.extract_tile img (tx2 * ReconstructMap.TILE_SIZE)
            (ty2 * ReconstructMap.TILE_SIZE))) ∧
    ∀ (md5 : List ℕ → ℕ) (img2 : Img) (c1 c2 : ℕ × ℕ × ℕ × ℕ),
      c1 ∈ CreateTileset.scan_cells → c2 ∈ CreateTileset.scan_cells →
      (CreateTileset.ctsId md5 img2 c1 = CreateTileset.ctsId md5 img2 c2 ↔
        md5 (CreateTileset.cellTile img2 c1) = md5 (CreateTileset.cellTile img2 c2)) := by
  constructor
  · refine ⟨_, _, ReconstructMap.cellId_eq h1 h2, ReconstructMap.cellId_eq h3 h4, ?_⟩
    constructor
    · exact fun he => idxOf_inj (mem_firstDedup.mpr (ReconstructMap.mem_scannedTiles h1 h2))
        (mem_firstDedup.mpr (ReconstructMap.mem_scannedTiles h3 h4)) he
    · intro he
      rw [he]
  · intro md5 img2 c1 c2 hc1 hc2
    have hm1 : md5 (CreateTileset.cellTile img2 c1) ∈
        (CreateTileset.cts_scan md5 img2).tile_order := by
      rw [CreateTileset.cts_tile_order, mem_firstDedup]
      exact List.mem_map_of_mem _ hc1
    have hm2 : md5 (CreateTileset.cellTile img2 c2) ∈
        (CreateTileset.cts_scan md5 img2).tile_order := by
      rw [CreateTileset.cts_tile_order, mem_firstDedup]
      exact List.mem_map_of_mem _ hc2
    unfold CreateTileset.ctsId
    constructor
    · exact fun he => idxOf_inj hm1 hm2 he
    · intro he
      rw [he]

/-- Witness for C1: cells (0,0) and (1,0) of the concrete image `wimg`
hold different pixel blocks, and the instantiated claim decides their
ids accordingly. -/
theorem claim1_witness :
    (∃ i1 i2, ReconstructMap.cellId wimg 0 0 = some i1 ∧
      ReconstructMap.cellId wimg 1 0 = some i2 ∧
      (i1 = i2 ↔
        ReconstructMap.extract_tile wimg (0 * ReconstructMap.TILE_SIZE)
            (0 * ReconstructMap.TILE_SIZE) =
          ReconstructMap.extract_tile wimg (1 * ReconstructMap.TILE_SIZE)
            (0 * ReconstructMap.TILE_SIZE))) ∧
    ∀ (md5 : List ℕ → ℕ) (img2 : Img) (c1 c2 : ℕ × ℕ × ℕ × ℕ),
      c1 ∈ CreateTileset.scan_cells → c2 ∈ CreateTileset.scan_cells →
      (CreateTileset.ctsId md5 img2 c1 = CreateTileset.ctsId md5 img2 c2 ↔
        md5 (CreateTileset.cellTile img2 c1) = md5 (CreateTileset.cellTile img2 c2)) :=
  claim1 wimg 0 0 1 0 (by decide) (by decide) (by decide) (by decide)

/-- C2: ids are assigned sequentially from 0 in strict first-occurrence
raster order (raster position = position in the scan sequence
`scannedTiles` / `cts_hashes`), and the id set of the finished table is
exactly `{0, …, unique_count - 1}` (`List.range unique_count`, in
insertion order). -/
theorem claim2 (img : Img) :
    (ReconstructMap.extract_unique_tiles_from_map img).tile_to_id.map Prod.snd =
      List.range (ReconstructMap.extract_unique_tiles_from_map img).unique_tiles.length ∧
    (∀ t1 t2 : List ℕ,
      t1 ∈ ReconstructMap.scannedTiles img → t2 ∈ ReconstructMap.scannedTiles img →
      idxOf t1 (ReconstructMap.scannedTiles img) < idxOf t2 (ReconstructMap.scannedTiles img) →
      ∃ i1 i2,
        dictLookup (ReconstructMap.tile_hash t1)
          (ReconstructMap.extract_unique_tiles_from_map img).tile_to_id = some i1 ∧
        dictLookup (ReconstructMap.tile_hash t2)
          (ReconstructMap.extract_unique_tiles_from_map img).tile_to_id = some i2 ∧
        i1 < i2) ∧
    ∀ (md5 : List ℕ → ℕ) (img2 : Img) (h1 h2 : ℕ),
      h1 ∈ CreateTileset.cts_hashes md5 img2 → h2 ∈ CreateTileset.cts_hashes md5 img2 →
      idxOf h1 (CreateTileset.cts_hashes md5 img2) <
        idxOf h2 (CreateTileset.cts_hashes md5 img2) →
      idxOf h1 (CreateTileset.cts_scan md5 img2).tile_order <
        idxOf h2 (CreateTileset.cts_scan md5 img2).tile_order := by
  refine ⟨?_, ?_, ?_⟩
  · rw [ReconstructMap.extract_unique_spec]
    rw [show (⟨idTableFrom 0 (firstDedup (ReconstructMap.scannedTiles img)),
        firstDedup (ReconstructMap.scannedTiles img)⟩ : ReconstructMap.DedupState).tile_to_id =
        idTableFrom 0 (firstDedup (ReconstructMap.scannedTiles img)) from rfl]
    rw [map_snd_idTableFrom, List.range_eq_range']
  · intro t1 t2 ht1 ht2 hlt
    refine ⟨_, _, ReconstructMap.lookup_scanned ht1, ReconstructMap.lookup_scanned ht2, ?_⟩
    unfold firstDedup
    exact idxOf_foldl_insStep_lt (by simp) (by simp) ht1 ht2 hlt
  · intro md5 img2 h1 h2 hm1 hm2 hlt
    rw [CreateTileset.cts_tile_order]
    unfold firstDedup
    exact idxOf_foldl_insStep_lt (by simp) (by simp) hm1 hm2 hlt

/-- Witness for C2: in `wimg` the block of cell (0,0) first occurs
before the block of cell (1,0), and its id is smaller. -/
theorem claim2_witness :
    ∃ i1 i2,
      dictLookup (ReconstructMap.tile_hash (ReconstructMap.extract_tile wimg 0 0))
        (ReconstructMap.extract_unique_tiles_from_map wimg).tile_to_id = some i1 ∧
      dictLookup (ReconstructMap.tile_hash (ReconstructMap.extract_tile wimg 16 0))
        (ReconstructMap.extract_unique_tiles_from_map wimg).tile_to_id = some i2 ∧
      i1 < i2 :=
  (claim2 wimg).2.1 _ _ (by decide) (by decide) (by decide)

/-- C3 (round trip): for every grid cell, take the exported 1-based tile
reference `v`, recover the id `v - 1`, crop the atlas at
`((v-1) % columns * 16, (v-1) / columns * 16)`: the crop equals the
cell's original pixel block. -/
theorem claim3 (img : Img) (tx ty : ℕ)
    (htx : tx < img.width / ReconstructMap.TILE_SIZE)
    (hty : ty < img.height / ReconstructMap.TILE_SIZE) :
    ∃ v, ReconstructMap.cellRef img tx ty = some v ∧ 1 ≤ v ∧
      ReconstructMap.extract_tile
          (ReconstructMap.create_tileset_image
            (ReconstructMap.extract_unique_tiles_from_map img).unique_tiles)
          ((v - 1) % ReconstructMap.tiles_per_row
              (ReconstructMap.extract_unique_tiles_from_map img).unique_tiles.length *
            ReconstructMap.TILE_SIZE)
          ((v - 1) / ReconstructMap.tiles_per_row
              (ReconstructMap.extract_unique_tiles_from_map img).unique_tiles.length *
            ReconstructMap.TILE_SIZE) =
        ReconstructMap.extract_tile img (tx * ReconstructMap.TILE_SIZE)
          (ty * ReconstructMap.TILE_SIZE) := by
  have hmemS := ReconstructMap.mem_scannedTiles htx hty
  have hmem := mem_firstDedup.mpr hmemS
  refine ⟨idxOf (ReconstructMap.extract_tile img (tx * ReconstructMap.TILE_SIZE)
      (ty * ReconstructMap.TILE_SIZE)) (firstDedup (ReconstructMap.scannedTiles img)) + 1,
    ?_, ?_, ?_⟩
  · unfold ReconstructMap.cellRef
    rw [ReconstructMap.cellId_eq htx hty]
    rfl
  · omega
  · rw [ReconstructMap.extract_unique_unique]
    simp only [Nat.add_sub_cancel]
    rw [ReconstructMap.extract_tile_atlas _ (idxOf_lt_length hmem), getD_idxOf hmem]
    unfold ReconstructMap.extract_tile
    exact ReconstructMap.grid2_getD_self _

/-- Witness for C3 at cell (0,0) of `wimg`. -/
theorem claim3_witness :
    ∃ v, ReconstructMap.cellRef wimg 0 0 = some v ∧ 1 ≤ v ∧
      ReconstructMap.extract_tile
          (ReconstructMap.create_tileset_image
            (ReconstructMap.extract_unique_tiles_from_map wimg).unique_tiles)
          ((v - 1) % ReconstructMap.tiles_per_row
              (ReconstructMap.extract_unique_tiles_from_map wimg).unique_tiles.length *
            ReconstructMap.TILE_SIZE)
          ((v - 1) / ReconstructMap.tiles_per_row
              (ReconstructMap.extract_unique_tiles_from_map wimg).unique_tiles.length *
            ReconstructMap.TILE_SIZE) =
        ReconstructMap.extract_tile wimg (0 * ReconstructMap.TILE_SIZE)
          (0 * ReconstructMap.TILE_SIZE) :=
  claim3 wimg 0 0 (by decide) (by decide)

/-- C4: the exported flattened row-major data holds, at position
`ty * tiles_x + tx`, the cell's internal 0-based id plus 1; every emitted
reference lies in `{1, …, unique_count}` and `0` (empty) never occurs. -/
theorem claim4 (img : Img) :
    (∀ tx ty, tx < img.width / ReconstructMap.TILE_SIZE →
      ty < img.height / ReconstructMap.TILE_SIZE →
      ∃ id, ReconstructMap.cellId img tx ty = some id ∧
        (ReconstructMap.flat_data (ReconstructMap.build_tile_map img
            (ReconstructMap.extract_unique_tiles_from_map img).tile_to_id)).getD
          (ty * (img.width / ReconstructMap.TILE_SIZE) + tx) none = some (id + 1)) ∧
    ∀ v ∈ ReconstructMap.flat_data (ReconstructMap.build_tile_map img
        (ReconstructMap.extract_unique_tiles_from_map img).tile_to_id),
      ∃ k, v = some k ∧ 1 ≤ k ∧
        k ≤ (ReconstructMap.extract_unique_tiles_from_map img).unique_tiles.length ∧
        v ≠ some 0 := by
  constructor
  · intro tx ty htx hty
    refine ⟨_, ReconstructMap.cellId_eq htx hty, ?_⟩
    rw [ReconstructMap.flat_data_build, getD_grid2 _ _ hty htx,
      ReconstructMap.lookup_scanned (ReconstructMap.mem_scannedTiles htx hty)]
    rfl
  · intro v hv
    rw [ReconstructMap.flat_data_build] at hv
    obtain ⟨ty, hty, tx, htx, rfl⟩ := mem_grid2.mp hv
    rw [ReconstructMap.lookup_scanned (ReconstructMap.mem_scannedTiles htx hty)]
    refine ⟨idxOf (ReconstructMap.extract_tile img (tx * ReconstructMap.TILE_SIZE)
        (ty * ReconstructMap.TILE_SIZE)) (firstDedup (ReconstructMap.scannedTiles img)) + 1,
      rfl, by omega, ?_, by simp⟩
    rw [ReconstructMap.extract_unique_unique]
    exact idxOf_lt_length (mem_firstDedup.mpr (ReconstructMap.mem_scannedTiles htx hty))

/-- Witness for C4 at cell (1,0) of `wimg`. -/
theorem claim4_witness :
    ∃ id, ReconstructMap.cellId wimg 1 0 = some id ∧
      (ReconstructMap.flat_data (ReconstructMap.build_tile_map wimg
          (ReconstructMap.extract_unique_tiles_from_map wimg).tile_to_id)).getD
        (0 * (wimg.width / ReconstructMap.TILE_SIZE) + 1) none = some (id + 1) :=
  (claim4 wimg).1 1 0 (by decide) (by decide)

/-- C5 (code bug in `generate_tiled_json`): with 4 unique tiles the
square-ish packing uses `columns = ceil(sqrt 4) = 2`, the atlas actually
produced is `ceil(4 / 2) * 16 = 32` px tall, but the emitted descriptor
says `imageheight = (4 // 2 + 1) * 16 = 48`.  The claim (and the Tiled
format the docstring targets) require the descriptor to equal the actual
atlas height; `imagewidth` does agree. -/
theorem claim5_code_bug :
    ReconstructMap.tiles_per_row fourTiles.length = 2 ∧
    (ReconstructMap.tileset_entry (ReconstructMap.tiles_per_row fourTiles.length)
        fourTiles.length).imageheight = 48 ∧
    (ReconstructMap.create_tileset_image fourTiles).height = 32 ∧
    (ReconstructMap.tileset_entry (ReconstructMap.tiles_per_row fourTiles.length)
        fourTiles.length).imageheight ≠ (ReconstructMap.create_tileset_image fourTiles).height ∧
    (ReconstructMap.tileset_entry (ReconstructMap.tiles_per_row fourTiles.length)
        fourTiles.length).imagewidth = (ReconstructMap.create_tileset_image fourTiles).width := by
  have hs : Nat.sqrt 4 = 2 := by simpa using Nat.sqrt_eq 2
  have hc : ReconstructMap.tiles_per_row 4 = 2 := by
    simp [ReconstructMap.tiles_per_row, hs]
  refine ⟨?_, ?_, ?_, ?_, ?_⟩ <;>
    simp [fourTiles, hc, ReconstructMap.tileset_entry, ReconstructMap.create_tileset_image,
      ReconstructMap.num_rows, ReconstructMap.TILE_SIZE]

/-- C6 counterexample: for the 16×16 `smallImg` the size check warns and
the scan still processes all 25344 declared cells, but extraction does
not use the source's actual pixel bounds: cell (screen (1,0), tile
(0,0)) is scanned although its crop rectangle starts at x = 257, wholly
beyond the 16-px-wide image — refuting the claim's final clause. -/
theorem claim6_counterexample :
    CreateTileset.dims_warning smallImg ∧
    (CreateTileset.main_scan smallImg).length = CreateTileset.total_tiles ∧
    ¬ ∀ c ∈ CreateTileset.scan_cells,
        (CreateTileset.tile_px c.1 c.2.1 c.2.2.1 c.2.2.2).1 + CreateTileset.TILE_SIZE ≤
          smallImg.width ∧
        (CreateTileset.tile_px c.1 c.2.1 c.2.2.1 c.2.2.2).2 + CreateTileset.TILE_SIZE ≤
          smallImg.height := by
  refine ⟨by decide, CreateTileset.length_main_scan smallImg, ?_⟩
  intro hall
  have hmem : ((1 : ℕ), (0 : ℕ), (0 : ℕ), (0 : ℕ)) ∈ CreateTileset.scan_cells :=
    CreateTileset.mem_scan_cells.mpr (by decide)
  have hx := (hall _ hmem).1
  revert hx
  decide

/-- C6 (amended): when the measured size differs from the computed
expectation, `main` emits the warning and does not abort, and extraction
proceeds to completion over the full cell grid of the *declared*
geometry (the scanned cells are exactly the declared ranges, independent
of the image; out-of-bounds reads are crop fill), not the source's
actual pixel bounds. -/
theorem claim6_amended (img : Img)
    (h : img.width ≠ CreateTileset.expected_width ∨
      img.height ≠ CreateTileset.expected_height) :
    CreateTileset.dims_warning img ∧
    (CreateTileset.main_scan img).length = CreateTileset.total_tiles ∧
    ∀ sx sy tx ty : ℕ, (sx, sy, tx, ty) ∈ CreateTileset.scan_cells ↔
      sx < CreateTileset.SCREENS_X ∧ sy < CreateTileset.SCREENS_Y ∧
      tx < CreateTileset.SCREEN_TILES_X ∧ ty < CreateTileset.SCREEN_TILES_Y :=
  ⟨h, CreateTileset.length_main_scan img, fun _ _ _ _ => CreateTileset.mem_scan_cells⟩

/-- Witness for the amended C6 at `smallImg`. -/
theorem claim6_witness :
    CreateTileset.dims_warning smallImg ∧
    (CreateTileset.main_scan smallImg).length = CreateTileset.total_tiles ∧
    ∀ sx sy tx ty : ℕ, (sx, sy, tx, ty) ∈ CreateTileset.scan_cells ↔
      sx < CreateTileset.SCREENS_X ∧ sy < CreateTileset.SCREENS_Y ∧
      tx < CreateTileset.SCREEN_TILES_X ∧ ty < CreateTileset.SCREEN_TILES_Y :=
  claim6_amended smallImg (by decide)

/-- C7: the square-ish packing uses `columns = ceil(sqrt count)` and
`rows = ceil(count / columns)`, the output image is
`columns * 16 × rows * 16` px, and block `i` occupies the 16×16 cell at
`((i % columns) * 16, (i // columns) * 16)`. -/
theorem claim7 (uts : List (List ℕ)) (h : 0 < uts.length) :
    ReconstructMap.tiles_per_row uts.length = ⌈Real.sqrt (uts.length : ℝ)⌉₊ ∧
    ReconstructMap.num_rows uts.length (ReconstructMap.tiles_per_row uts.length) =
      ⌈(uts.length : ℝ) / (ReconstructMap.tiles_per_row uts.length : ℝ)⌉₊ ∧
    (ReconstructMap.create_tileset_image uts).width =
      ReconstructMap.tiles_per_row uts.length * ReconstructMap.TILE_SIZE ∧
    (ReconstructMap.create_tileset_image uts).height =
      ReconstructMap.num_rows uts.length (ReconstructMap.tiles_per_row uts.length) *
        ReconstructMap.TILE_SIZE ∧
    ∀ i, i < uts.length → ∀ dy, dy < ReconstructMap.TILE_SIZE →
      ∀ dx, dx < ReconstructMap.TILE_SIZE →
      (ReconstructMap.create_tileset_image uts).pix
          (i % ReconstructMap.tiles_per_row uts.length * ReconstructMap.TILE_SIZE + dx)
          (i / ReconstructMap.tiles_per_row uts.length * ReconstructMap.TILE_SIZE + dy) =
        (uts.getD i []).getD (dy * ReconstructMap.TILE_SIZE + dx) 0 :=
  ⟨ReconstructMap.tiles_per_row_eq_ceil_sqrt h,
   ReconstructMap.num_rows_eq_ceil_div h (ReconstructMap.tiles_per_row_pos h),
   rfl, rfl,
   fun _ hi _ hdy _ hdx => ReconstructMap.atlas_pix uts hi hdx hdy⟩

/-- Witness for C7 at the four-tile list. -/
theorem claim7_witness :
    ReconstructMap.tiles_per_row fourTiles.length = ⌈Real.sqrt (fourTiles.length : ℝ)⌉₊ ∧
    ReconstructMap.num_rows fourTiles.length (ReconstructMap.tiles_per_row fourTiles.length) =
      ⌈(fourTiles.length : ℝ) / (ReconstructMap.tiles_per_row fourTiles.length : ℝ)⌉₊ ∧
    (ReconstructMap.create_tileset_image fourTiles).width =
      ReconstructMap.tiles_per_row fourTiles.length * ReconstructMap.TILE_SIZE ∧
    (ReconstructMap.create_tileset_image fourTiles).height =
      ReconstructMap.num_rows fourTiles.length (ReconstructMap.tiles_per_row fourTiles.length) *
        ReconstructMap.TILE_SIZE ∧
    ∀ i, i < fourTiles.length → ∀ dy, dy < ReconstructMap.TILE_SIZE →
      ∀ dx, dx < ReconstructMap.TILE_SIZE →
      (ReconstructMap.create_tileset_image fourTiles).pix
          (i % ReconstructMap.tiles_per_row fourTiles.length * ReconstructMap.TILE_SIZE + dx)
          (i / ReconstructMap.tiles_per_row fourTiles.length * ReconstructMap.TILE_SIZE + dy) =
        (fourTiles.getD i []).getD (dy * ReconstructMap.TILE_SIZE + dx) 0 :=
  claim7 fourTiles (by decide)

/-- C8: the absolute top-left pixel of cell
`(screen_x, screen_y, tile_x, tile_y)` is the spec's segmented formula,
and in particular screen (1,0) has pixel origin (257, 0). -/
theorem claim8 :
    (∀ screen_x screen_y tile_x tile_y : ℕ,
      CreateTileset.tile_px screen_x screen_y tile_x tile_y =
        (screen_x * (CreateTileset.SCREEN_TILES_X * CreateTileset.TILE_SIZE +
              CreateTileset.SEPARATOR_WIDTH) + tile_x * CreateTileset.TILE_SIZE,
         screen_y * (CreateTileset.SCREEN_TILES_Y * CreateTileset.TILE_SIZE +
              CreateTileset.SEPARATOR_WIDTH) + tile_y * CreateTileset.TILE_SIZE)) ∧
    CreateTileset.get_screen_pixel_origin 1 0 = (257, 0) :=
  ⟨fun _ _ _ _ => rfl, by decide⟩

/-- C9: every screen record has `pixel_x = tile_x * 16` and
`pixel_y = tile_y * 16` (no separator offset anywhere), and the ids are
exactly `0 … 127` in row-major grid order
(`id = grid_y * SCREENS_WIDE + grid_x`). -/
theorem claim9 :
    (∀ r ∈ ReconstructMap.generate_screen_metadata,
      r.pixel_x = r.tile_x * ReconstructMap.TILE_SIZE ∧
      r.pixel_y = r.tile_y * ReconstructMap.TILE_SIZE ∧
      r.id = r.grid_y * ReconstructMap.SCREENS_WIDE + r.grid_x) ∧
    ReconstructMap.generate_screen_metadata.map (fun r => r.id) =
      List.range (ReconstructMap.SCREENS_WIDE * ReconstructMap.SCREENS_TALL) := by
  constructor
  · decide
  · decide

/-- Witness for C9 at the first emitted screen record. -/
theorem claim9_witness :
    (⟨0, 0, 0, 0, 0, 0, 0, 16, 11⟩ : ReconstructMap.ScreenRec).pixel_x =
      (⟨0, 0, 0, 0, 0, 0, 0, 16, 11⟩ : ReconstructMap.ScreenRec).tile_x *
        ReconstructMap.TILE_SIZE ∧
    (⟨0, 0, 0, 0, 0, 0, 0, 16, 11⟩ : ReconstructMap.ScreenRec).pixel_y =
      (⟨0, 0, 0, 0, 0, 0, 0, 16, 11⟩ : ReconstructMap.ScreenRec).tile_y *
        ReconstructMap.TILE_SIZE ∧
    (⟨0, 0, 0, 0, 0, 0, 0, 16, 11⟩ : ReconstructMap.ScreenRec).id =
      (⟨0, 0, 0, 0, 0, 0, 0, 16, 11⟩ : ReconstructMap.ScreenRec).grid_y *
        ReconstructMap.SCREENS_WIDE +
        (⟨0, 0, 0, 0, 0, 0, 0, 16, 11⟩ : ReconstructMap.ScreenRec).grid_x :=
  claim9.1 ⟨0, 0, 0, 0, 0, 0, 0, 16, 11⟩ (by decide)

/-- C10 (non-interference of trailing pixels): two same-sized images that
agree on every pixel below the last complete tile boundaries produce the
same dedup state (fingerprint table and unique list) and the same
tilemap. -/
theorem claim10 (img1 img2 : Img) (hw : img1.width = img2.width)
    (hh : img1.height = img2.height)
    (hagree : ∀ x y,
      x < img1.width / ReconstructMap.TILE_SIZE * ReconstructMap.TILE_SIZE →
      y < img1.height / ReconstructMap.TILE_SIZE * ReconstructMap.TILE_SIZE →
      img1.pix x y = img2.pix x y) :
    ReconstructMap.extract_unique_tiles_from_map img1 =
      ReconstructMap.extract_unique_tiles_from_map img2 ∧
    ReconstructMap.build_tile_map img1
        (ReconstructMap.extract_unique_tiles_from_map img1).tile_to_id =
      ReconstructMap.build_tile_map img2
        (ReconstructMap.extract_unique_tiles_from_map img2).tile_to_id :=
  ⟨ReconstructMap.extract_unique_eq_of_agree hw hh hagree,
   ReconstructMap.build_tile_map_eq_of_agree hw hh hagree⟩

/-- Witness for C10: `trailImg1` and `trailImg2` differ only in the
trailing pixel column x = 32. -/
theorem claim10_witness :
    ReconstructMap.extract_unique_tiles_from_map trailImg1 =
      ReconstructMap.extract_unique_tiles_from_map trailImg2 ∧
    ReconstructMap.build_tile_map trailImg1
        (ReconstructMap.extract_unique_tiles_from_map trailImg1).tile_to_id =
      ReconstructMap.build_tile_map trailImg2
        (ReconstructMap.extract_unique_tiles_from_map trailImg2).tile_to_id :=
  claim10 trailImg1 trailImg2 rfl rfl (by
    intro x y hx hy
    norm_num [trailImg1, ReconstructMap.TILE_SIZE] at hx
    simp only [trailImg1, trailImg2]
    rw [if_neg (by omega)])
